import Mathlib

/-!
Verification development for the long-scroll virtualized list renderer
(`src/lib/LongScroll.ts`, `src/lib/Scheduler.ts`).

The TypeScript sources are shallowly embedded: row indices and pixel
counts are modelled as `ℤ`/`ℚ` (JS numbers are IEEE doubles, but every
quantity manipulated here is an integer or a small rational, and the
double computations agree exactly with rational arithmetic on the values
reached in the programs and on the concrete inputs used below), object
state is passed explicitly, and methods become pure functions from state
to state.  The file first gives all definitions, then all lemmas and the
claim theorems.
-/

namespace LongScrollSpec

/-- JS `Math.round`: round half toward positive infinity, `⌊x + 1/2⌋`. -/
def jsRound (x : ℚ) : ℤ := Int.floor (x + 1/2)

/-! ## `Range` (src/lib/LongScroll.ts, class `Range`)

A half-open interval of rows (or pixels).  The TS constructor throws when
`top > bot`; the structure itself carries no invariant, and well-formed
construction is proved where needed. -/

structure Range where
  top : ℤ
  bot : ℤ
deriving DecidableEq, Repr

namespace Range

/-- Source: `get height() { return this._bottom - this._top; }` -/
def height (r : Range) : ℤ := r.bot - r.top

/-- Source: `contains(i: number)`: `a >= this.top && a < this.bot`. -/
def containsNum (r : Range) (i : ℤ) : Bool := r.top ≤ i && i < r.bot

/-- Source: `contains(r: Range)`: empty ranges are always contained, else both
`top` and `bot - 1` must be contained. -/
def containsRange (r a : Range) : Bool :=
  if a.height = 0 then true
  else r.containsNum a.top && r.containsNum (a.bot - 1)

/-- Source: `clampTo`: copy `this`, pull `top` up to `other.top`, pull `bot` down
to `other.bot`, then collapse to the empty range `(bot, bot)` if the two
ends crossed. -/
def clampTo (r other : Range) : Range :=
  let t := if other.top > r.top then other.top else r.top
  let b := if other.bot < r.bot then other.bot else r.bot
  if t > b then ⟨b, b⟩ else ⟨t, b⟩

/-- Source: `clampNum(i)`: `if(i < this.top) return this.top; if(i > this.bot)
return this.bot - 1; return i;` — note the test is `i > bot`, not
`i >= bot`. -/
def clampNum (r : Range) (i : ℤ) : ℤ :=
  if i < r.top then r.top
  else if i > r.bot then r.bot - 1
  else i

/-- Source: `range.forEach(f)` iterates `i` from `top` to `bot - 1`. -/
def toList (r : Range) : List ℤ :=
  (List.range r.height.toNat).map fun k => r.top + k

end Range

/-! ## `AveragedValue` (src/lib/LongScroll.ts)

Keeps a running window of samples; `addValue` pushes and then shifts when
`length >= maxSamples` — so after the shift at most `maxSamples - 1`
samples remain. -/

structure AveragedValue where
  samples : List ℚ
  maxSamples : ℕ
deriving DecidableEq, Repr

namespace AveragedValue

/-- Source: `addValue(v)`: push `v`, then `if(samples.length >= maxSamples)
samples.shift()`. -/
def addValue (a : AveragedValue) (v : ℚ) : AveragedValue :=
  let s := a.samples ++ [v]
  if a.maxSamples ≤ s.length then { a with samples := s.drop 1 }
  else { a with samples := s }

/-- Source: `get()`: throws when there are no samples (modelled as `none`), else
the arithmetic mean of the retained samples. -/
def getAvg (a : AveragedValue) : Option ℚ :=
  if a.samples.length = 0 then none
  else some (a.samples.sum / a.samples.length)

end AveragedValue

/-- Source: `AnimationFrameTimer` owns `averagedFrameTime = new AveragedValue(5)`;
each `tick()` feeds the last inter-tick duration into it.  Running the
timer over a list of inter-tick durations yields this window state. -/
def animationTicks (durations : List ℚ) : AveragedValue :=
  durations.foldl AveragedValue.addValue { samples := [], maxSamples := 5 }

/-- Source: `getAveragedFrameTime()` after the given inter-tick durations. -/
def getAveragedFrameTime (durations : List ℚ) : Option ℚ :=
  (animationTicks durations).getAvg

/-! ## `VelTracker` (src/lib/LongScroll.ts)

`Date.now()` is passed in explicitly as `now`. -/

structure VelTracker where
  lastTime : ℚ
  lastPos : ℚ
  lastVel : ℚ
deriving DecidableEq, Repr

namespace VelTracker

/-- Source: `decayStartTime = 50`. -/
def decayStartTime : ℚ := 50

/-- Source: `decayTime = 200`. -/
def decayTime : ℚ := 200

/-- Source: `onScroll(scrollPos)`: first call initializes; later calls blend the
instantaneous velocity `delta / max(1, deltaT)` into `lastVel` with
weights `0.8/0.2`. -/
def onScroll (s : VelTracker) (scrollPos now : ℚ) : VelTracker :=
  if s.lastPos = -1 then { s with lastTime := now, lastPos := scrollPos }
  else
    let delta := scrollPos - s.lastPos
    let deltaT := max 1 (now - s.lastTime)
    let newVel := delta / deltaT
    { lastVel := s.lastVel * 0.8 + newVel * 0.2, lastTime := now, lastPos := scrollPos }

/-- Source: `getVel()`: returns the (possibly decayed) velocity and the possibly
updated tracker state — the single mutation is `this.lastVel = 0` on the
full-decay branch. -/
def getVel (s : VelTracker) (now : ℚ) : ℚ × VelTracker :=
  let deltaT := now - s.lastTime
  if deltaT < decayStartTime then (s.lastVel, s)
  else if decayTime ≤ deltaT then (0, { s with lastVel := 0 })
  else (s.lastVel * (1 - deltaT / decayTime), s)

end VelTracker

/-! ## `Scheduler` (src/lib/Scheduler.ts)

Three FIFO task queues drained once per frame.  Owners are modelled by
ids.  The JS event loop matters here: resolving a promise only *queues*
its registered reactions as microtasks; they run at the next suspension
point (`await`).  `executeTasks` resolves every task in a synchronous
loop, then empties the queue, then hits `await Promise.resolve()` — the
microtask checkpoint at which the resumed continuations run, in
resolution (FIFO) order.  A continuation is modelled by the list of
phases onto which it schedules fresh tasks when resumed. -/

inductive TaskState
  | Pending
  | Fulfilled
  | Rejected
deriving DecidableEq, Repr

/-- The only rejection the scheduler itself produces (`TaskCancelledError`). -/
inductive SchedError
  | taskCancelled
deriving DecidableEq, Repr

inductive Phase
  | read
  | write
  | idleWrite
deriving DecidableEq, Repr

/-- A scheduler `Task`: owner reference, state, the error its promise was
rejected with (if any), and the suspended continuation on its promise,
modelled as the phases it schedules new tasks onto when resumed. -/
structure Task where
  id : ℕ
  owner : ℕ
  state : TaskState
  rejectedWith : Option SchedError
  cont : List Phase
deriving DecidableEq, Repr

structure SchedulerState where
  readQueue : List Task
  writeQueue : List Task
  idleWriteQueue : List Task
  nextId : ℕ
deriving DecidableEq, Repr

def queueOf : Phase → SchedulerState → List Task
  | .read, σ => σ.readQueue
  | .write, σ => σ.writeQueue
  | .idleWrite, σ => σ.idleWriteQueue

def setQueue : Phase → List Task → SchedulerState → SchedulerState
  | .read, q, σ => { σ with readQueue := q }
  | .write, q, σ => { σ with writeQueue := q }
  | .idleWrite, q, σ => { σ with idleWriteQueue := q }

/-- Source: `SchedulerQueue.addTask`: push onto the end of the queue. -/
def addTask (p : Phase) (t : Task) (σ : SchedulerState) : SchedulerState :=
  setQueue p (queueOf p σ ++ [t]) σ

/-- Source: `Task.cancel(err)` as invoked by `clearTasksBy`: mark Rejected and
reject the promise with a `TaskCancelledError`. -/
def cancelTask (t : Task) : Task :=
  { t with state := .Rejected, rejectedWith := some .taskCancelled }

/-- Source: `SchedulerQueue.clearTasksBy(ownerObj)`: cancel every task in the
queue whose owner matches and whose state is still Pending; everything
else is left in place untouched. -/
def clearTasksBy (owner : ℕ) (q : List Task) : List Task :=
  q.map fun t => if t.owner = owner ∧ t.state = .Pending then cancelTask t else t

/-- Source: `Scheduler.cancelJobs(owner)`: `clearTasksBy` on all three queues. -/
def Scheduler.cancelJobs (owner : ℕ) (σ : SchedulerState) : SchedulerState :=
  { σ with
    readQueue := clearTasksBy owner σ.readQueue
    writeQueue := clearTasksBy owner σ.writeQueue
    idleWriteQueue := clearTasksBy owner σ.idleWriteQueue }

/-- The continuation of a fulfilled task resumes at the microtask
checkpoint and schedules one fresh Pending task (with no further
continuation) on each phase in `t.cont`, in order. -/
def runCont (t : Task) (σ : SchedulerState) : SchedulerState :=
  t.cont.foldl
    (fun acc p =>
      let fresh : Task :=
        { id := acc.nextId, owner := t.owner, state := .Pending
          rejectedWith := none, cont := [] }
      addTask p fresh { acc with nextId := acc.nextId + 1 })
    σ

/-- Source: `SchedulerQueue.executeTasks(evt)`: synchronously `run` every
non-Rejected task in the queue (skipping cancelled ones), set
`this.queue = []`, then `await Promise.resolve()` — at which point the
continuations of just-fulfilled tasks run in FIFO order, scheduling any
new tasks into the *current* (already emptied) queues.  Returns the new
state and the fulfillment trace (task ids in resolution order).  A
Fulfilled task found in the queue would throw in the source; it is never
enqueued in normal operation and the model skips it. -/
def executeTasks (p : Phase) (σ : SchedulerState) : SchedulerState × List ℕ :=
  let fulfilled := (queueOf p σ).filter fun t => t.state == .Pending
  let σ1 := setQueue p [] σ
  let σ2 := fulfilled.foldl (fun acc t => runCont t acc) σ1
  (σ2, fulfilled.map (·.id))

/-- Source: `Scheduler.doBatched()`: drain read, then write, then idle-write. -/
def doBatched (σ : SchedulerState) : SchedulerState × List ℕ :=
  let r := executeTasks .read σ
  let w := executeTasks .write r.1
  let i := executeTasks .idleWrite w.1
  (i.1, r.2 ++ w.2 ++ i.2)

/-! ## `BlockImpl.free` (src/lib/LongScroll.ts)

`free()` is synchronous; we record the externally visible calls it makes,
in order: per row the dummy element is surrendered via `freeDummyDom` and
— when real elements exist — the real element via `freeDom`; then
`scheduler.cancelJobs(this)`; then the host element is disposed. -/

inductive FreeEvent
  | freeDummyDom (i : ℤ)
  | freeDom (i : ℤ)
  | cancelJobs
  | domDispose
deriving DecidableEq, Repr

/-- Events that surrender an element to the data source. -/
def FreeEvent.isRelease : FreeEvent → Bool
  | .freeDummyDom _ => true
  | .freeDom _ => true
  | _ => false

/-- Source: `BlockImpl.free()`: the forEach loop surrendering dummy (and, if
prepared, real) doms, then `cancelJobs(this)`, then disposal of the
block div.  `prepared` is `this.doms != null`. -/
def BlockImpl.free (range : Range) (prepared : Bool) : List FreeEvent :=
  (range.toList.flatMap fun i =>
    FreeEvent.freeDummyDom i :: if prepared then [FreeEvent.freeDom i] else []) ++
  [FreeEvent.cancelJobs, FreeEvent.domDispose]

/-! ## `BlockSetImpl` (src/lib/LongScroll.ts)

The block set holds the ordered list of live blocks plus the current
target/leave ranges, the focal row, the adaptive block size and the
recent prepare-duration history.  `N` (`this.longscroll.data.length`) is
passed explicitly.  Only the state relevant to the verified behaviour is
kept per block: its (immutable) row range and its prepared flag. -/

structure BlockData where
  range : Range
  prepared : Bool
deriving DecidableEq, Repr

structure BlockSetState where
  blocks : List BlockData
  targetRange : Range
  leaveRange : Range
  targetRow : ℤ
  preferredBlockSize : ℤ
  lastTimes : List ℤ
deriving DecidableEq, Repr

/-- Source: `LongScroll.initialBlockSize = 19`. -/
def initialBlockSize : ℤ := 19

/-- Source: `LongScroll.preferredBlockTime = 12` (ms). -/
def preferredBlockTime : ℤ := 12

/-- Source: `LongScroll.minBlockSize = 5`. -/
def minBlockSize : ℤ := 5

/-- A fresh `BlockSetImpl`: no blocks, block size `initialBlockSize`, no
timing history.  (`targetRange`/`leaveRange`/`targetRow` are undefined
until the first `setTarget`; they are initialized to trivial values.) -/
def BlockSetImpl.init : BlockSetState :=
  { blocks := [], targetRange := ⟨0, 0⟩, leaveRange := ⟨0, 0⟩
    targetRow := 0, preferredBlockSize := initialBlockSize, lastTimes := [] }

/-- Source: `bot` of the last block of the list (0 for the empty list, which the
source never queries). -/
def lastBot : List BlockData → ℤ
  | [] => 0
  | [b] => b.range.bot
  | _ :: bs => lastBot bs

/-- Source: `getCoveredRange()`: `Range(0,0)` if empty, else from the first
block's `top` to the last block's `bot`. -/
def getCoveredRange (bs : List BlockData) : Range :=
  match bs with
  | [] => ⟨0, 0⟩
  | b :: _ => ⟨b.range.top, lastBot bs⟩

/-- Source: `createBlockClamped(r)`: clamp `r` to `[0, data.length)` and build a
block (unprepared, with fresh dummy doms) on the clamped range.  Note the
source constructs the block unconditionally — there is no guard against
an empty clamped range. -/
def createBlockClamped (N : ℤ) (r : Range) : BlockData :=
  { range := r.clampTo ⟨0, N⟩, prepared := false }

/-- Source: `makeFirstBlockAt(index)` (only called on an empty set): one block of
`preferredBlockSize` rows starting at `index`, clamped. -/
def makeFirstBlockAt (N idx : ℤ) (s : BlockSetState) : BlockSetState :=
  { s with blocks := [createBlockClamped N ⟨idx, idx + s.preferredBlockSize⟩] }

/-- Source: `addBlockAtStart()`: prepend a `preferredBlockSize`-row block ending
at the current covered range's `top`, clamped. -/
def addBlockAtStart (N : ℤ) (s : BlockSetState) : BlockSetState :=
  let r := getCoveredRange s.blocks
  { s with blocks :=
      createBlockClamped N ⟨r.top - s.preferredBlockSize, r.top⟩ :: s.blocks }

/-- Source: `addBlockAtEnd()`: append a `preferredBlockSize`-row block starting
at the current covered range's `bot`, clamped. -/
def addBlockAtEnd (N : ℤ) (s : BlockSetState) : BlockSetState :=
  let r := getCoveredRange s.blocks
  { s with blocks :=
      s.blocks ++ [createBlockClamped N ⟨r.bot, r.bot + s.preferredBlockSize⟩] }

/-- Drop elements from the *end* of a list while they satisfy `p` — the
`while(blocks.length && ...) pop()` loop of `ensureCovers`. -/
def dropLastWhile (p : α → Bool) : List α → List α
  | [] => []
  | b :: bs =>
    match dropLastWhile p bs with
    | [] => if p b then [] else [b]
    | b' :: bs' => b :: b' :: bs'

/-- The freeing phase of `ensureCovers` plus the empty-set re-seed:
(a) free from the front while the first block lies fully at or above
`leaveRange.top`; (b) free from the back while the last block lies fully
at or below `leaveRange.bot`; (c) if no blocks remain, place the first
block centered on `targetRow` (`halfBlock = floor(preferredBlockSize/2)`). -/
def ensurePre (N : ℤ) (s : BlockSetState) : BlockSetState :=
  let bs1 := s.blocks.dropWhile fun b => decide (b.range.bot ≤ s.leaveRange.top)
  let bs2 := dropLastWhile (fun b => decide (s.leaveRange.bot ≤ b.range.top)) bs1
  let s2 := { s with blocks := bs2 }
  if s2.blocks.isEmpty then
    makeFirstBlockAt N (s2.targetRow - s2.preferredBlockSize / 2) s2
  else s2

/-- One iteration of the bounded cover loop of `ensureCovers`: if the
target is covered, stop (modelled as the identity); else prepend a block
when the target sticks out at the top and append one when it sticks out
at the bottom.  Both conditions use the covered range computed at the
start of the iteration, exactly as in the source (the add functions
recompute it internally). -/
def ensureStep (N : ℤ) (s : BlockSetState) : BlockSetState :=
  let currR := getCoveredRange s.blocks
  if currR.containsRange s.targetRange then s
  else
    let s1 := if s.targetRange.top < currR.top then addBlockAtStart N s else s
    if currR.bot < s.targetRange.bot then addBlockAtEnd N s1 else s1

/-- Source: `for(let i = 0; i < 10; i++) ...` — iterate `ensureStep`. -/
def ensureLoop (N : ℤ) : ℕ → BlockSetState → BlockSetState
  | 0, s => s
  | n + 1, s => ensureLoop N n (ensureStep N s)

/-- Source: `ensureCovers()`: return immediately when the target is already
covered; `debug()` then throws (aborting with the state unmodified) when
`leaveRange` does not contain `targetRange`; otherwise free, re-seed and
run the 10-iteration cover loop. -/
def ensureCovers (N : ℤ) (s : BlockSetState) : BlockSetState :=
  if (getCoveredRange s.blocks).containsRange s.targetRange then s
  else if !(s.leaveRange.containsRange s.targetRange) then s
  else ensureLoop N 10 (ensurePre N s)

/-- The field updates of `setTarget(range, startFrom)`: record the target
row and range, and set `leaveRange` to the target expanded by a third of
its height on each side (`Math.round`ed), clamped to `[0, N)`. -/
def setTargetFields (N : ℤ) (range : Range) (startFrom : ℤ) (s : BlockSetState) :
    BlockSetState :=
  let newTop := jsRound ((range.top : ℚ) - (range.height : ℚ) / 3)
  let newBot := jsRound ((range.bot : ℚ) + (range.height : ℚ) / 3)
  { s with targetRow := startFrom, targetRange := range
           leaveRange := Range.clampTo ⟨newTop, newBot⟩ ⟨0, N⟩ }

/-- Source: `setTarget(range, startFrom)`: update the fields, then `ensureCovers`
(the source fires it asynchronously and swallows cancellation; in the
settled, sequential reading each call completes before the next). -/
def setTarget (N : ℤ) (range : Range) (startFrom : ℤ) (s : BlockSetState) :
    BlockSetState :=
  ensureCovers N (setTargetFields N range startFrom s)

/-- A sequence of `setTarget` calls against a fresh block set. -/
def runCalls (N : ℤ) (calls : List (Range × ℤ)) : BlockSetState :=
  calls.foldl (fun s c => setTarget N c.1 c.2 s) BlockSetImpl.init

/-- Source: `updateBlockTimes(time)`: push the prepare duration, keep only the
last 5, and once 5 are present shrink `preferredBlockSize` by
`Math.ceil(preferredBlockSize * 0.2)` (for a non-negative integer size
this equals `⌈size/5⌉ = (size + 4) / 5`, also under the source's
double arithmetic for every size reachable from 19) — bounded below by
`minBlockSize` — whenever at least 4 of the 5 exceed
`preferredBlockTime`, resetting the history on shrink. -/
def updateBlockTimes (time : ℤ) (s : BlockSetState) : BlockSetState :=
  let lt1 := s.lastTimes ++ [time]
  let lt2 := if 5 < lt1.length then lt1.drop (lt1.length - 5) else lt1
  if lt2.length = 5 then
    let numOver := (lt2.filter fun t => decide (preferredBlockTime < t)).length
    if 4 ≤ numOver then
      let shrinkBy := (s.preferredBlockSize + 4) / 5
      { s with preferredBlockSize := max minBlockSize (s.preferredBlockSize - shrinkBy)
               lastTimes := [] }
    else { s with lastTimes := lt2 }
  else { s with lastTimes := lt2 }

/-- Source: `doPrepare` feeds a prepare duration to `updateBlockTimes` only when
the prepared block's row count equals the current `preferredBlockSize`;
the C5 scenario always prepares at the current size, so each duration is
recorded.  `feedTwenties n` records `n` consecutive 20 ms durations. -/
def feedTwenties : ℕ → BlockSetState
  | 0 => BlockSetImpl.init
  | n + 1 => updateBlockTimes 20 (feedTwenties n)

/-- The outward walk of `getNextUnpreparedBlock`: starting from
`back = center`, `forward = center + 1`, inspect `blocks[back]` then
`blocks[forward]`, return the first unprepared block found, and step
outward while either side is in bounds.  `fuel` bounds the loop (the
source's loop terminates when both indices leave the array). -/
def searchOut (bs : List BlockData) : ℕ → ℤ → ℕ → Option BlockData
  | 0, _, _ => none
  | fuel + 1, back, fwd =>
    if 0 ≤ back ∨ fwd < bs.length then
      let hit1 : Option BlockData :=
        if 0 ≤ back then
          match bs[back.toNat]? with
          | some b => if b.prepared then none else some b
          | none => none
        else none
      match hit1 with
      | some b => some b
      | none =>
        let hit2 : Option BlockData :=
          if fwd < bs.length then
            match bs[fwd]? with
            | some b => if b.prepared then none else some b
            | none => none
          else none
        match hit2 with
        | some b => some b
        | none => searchOut bs fuel (back - 1) (fwd + 1)
    else none

/-- Source: `getNextUnpreparedBlock()`: clamp the focal row into `[0, N)` (via
`Range.clampNum`), find the first block containing it (`centerBlock`);
if none, return null; else walk outward for the first unprepared block. -/
def getNextUnpreparedBlock (N : ℤ) (s : BlockSetState) : Option BlockData :=
  let targetRow := Range.clampNum ⟨0, N⟩ s.targetRow
  match s.blocks.findIdx? (fun b => b.range.containsNum targetRow) with
  | none => none
  | some c => searchOut s.blocks (s.blocks.length + 1) (c : ℤ) (c + 1)

/-- Source: `doWork(evt)`: pick the next unprepared block; if none (including the
case where the focal row lies in no live block) return without work; else
run the probabilistic throttle `shouldRun = Math.random() > evt.loadFactor`
with the random draw `u` made explicit, and prepare the block only if it
passes.  Returns the block prepared, if any.  (The `DEBUG` escape hatch
of the source is omitted.) -/
def doWork (N : ℤ) (u loadFactor : ℚ) (s : BlockSetState) : Option BlockData :=
  match getNextUnpreparedBlock N s with
  | none => none
  | some b => if loadFactor < u then some b else none

/-! ## Well-formedness of the block list -/

/-- One block is well-formed for data length `N`: nonempty range inside
`[0, N)`. -/
def blockWF (N : ℤ) (b : BlockData) : Prop :=
  0 ≤ b.range.top ∧ b.range.top < b.range.bot ∧ b.range.bot ≤ N

/-- The block-list invariant: every block well-formed and consecutive
blocks contiguous (`bot = next.top`). -/
def blocksWF (N : ℤ) (bs : List BlockData) : Prop :=
  (∀ b ∈ bs, blockWF N b) ∧
  List.Chain' (fun a b => a.range.bot = b.range.top) bs

/-- The state invariant carried across `setTarget` calls. -/
def SInv (N : ℤ) (s : BlockSetState) : Prop :=
  blocksWF N s.blocks ∧ 1 ≤ s.preferredBlockSize

/-- A `setTarget(range, focus)` call with `range ⊆ [0, N)` (possibly
empty) and an in-bounds focal row. -/
@[reducible] def ValidCall (N : ℤ) (r : Range) (f : ℤ) : Prop :=
  0 ≤ r.top ∧ r.top ≤ r.bot ∧ r.bot ≤ N ∧ 0 ≤ f ∧ f < N

/-- Top of the covered range. -/
def covTop (s : BlockSetState) : ℤ := (getCoveredRange s.blocks).top

/-- Bottom of the covered range (`lastBot` of the block list). -/
def covBot (s : BlockSetState) : ℤ := lastBot s.blocks

/-- The invariant maintained across iterations of the cover loop of
`ensureCovers`: well-formed nonempty block list, positive block size,
and a target range inside `[0, N]`. -/
def LoopInv (N : ℤ) (s : BlockSetState) : Prop :=
  blocksWF N s.blocks ∧ s.blocks ≠ [] ∧ 1 ≤ s.preferredBlockSize ∧
  0 ≤ s.targetRange.top ∧ s.targetRange.top ≤ s.targetRange.bot ∧
  s.targetRange.bot ≤ N

/-! ## Theorems -/

/-! ### Evaluating `jsRound` on exact thirds

`Math.round(a ± h/3)` for integers `a`, `h`: with `⌊·⌋` on exact
rationals this is `⌊(6a ± 2h + 3)/6⌋`, an integer floor division.  (The
source computes in doubles; for the magnitudes of row indices the double
result of `a ± h/3` is never within double error of a `k + 1/2` boundary
unless it is exactly one, so `Math.round` agrees with the exact rational
rounding.) -/

theorem jsRound_add_third (a b : ℤ) :
    jsRound ((a : ℚ) + (b : ℚ) / 3) = (6 * a + 2 * b + 3) / 6 := by
  unfold jsRound
  have h : (a : ℚ) + (b : ℚ) / 3 + 1 / 2 = ((6 * a + 2 * b + 3 : ℤ) : ℚ) / ((6 : ℕ) : ℚ) := by
    push_cast
    ring
  rw [h, Rat.floor_intCast_div_natCast]
  norm_num

theorem jsRound_sub_third (a b : ℤ) :
    jsRound ((a : ℚ) - (b : ℚ) / 3) = (6 * a - 2 * b + 3) / 6 := by
  unfold jsRound
  have h : (a : ℚ) - (b : ℚ) / 3 + 1 / 2 = ((6 * a - 2 * b + 3 : ℤ) : ℚ) / ((6 : ℕ) : ℚ) := by
    push_cast
    ring
  rw [h, Rat.floor_intCast_div_natCast]
  norm_num

/-- Source: `setTargetFields` with the `Math.round` calls evaluated to integer
floor divisions — the form used for concrete evaluation. -/
theorem setTargetFields_eval (N : ℤ) (r : Range) (f : ℤ) (s : BlockSetState) :
    setTargetFields N r f s =
      { s with targetRow := f, targetRange := r
               leaveRange := Range.clampTo
                 ⟨(6 * r.top - 2 * r.height + 3) / 6,
                  (6 * r.bot + 2 * r.height + 3) / 6⟩ ⟨0, N⟩ } := by
  unfold setTargetFields
  rw [jsRound_sub_third, jsRound_add_third]

/-! ### C5: adaptive block-size shrinking -/

/-- Once `preferredBlockSize` has reached `minBlockSize = 5`, recording
further prepare durations never changes it: the attempted shrink is
`max 5 (5 - ⌈5/5⌉) = 5`. -/
theorem updateBlockTimes_keeps_min (t : ℤ) (s : BlockSetState)
    (h : s.preferredBlockSize = 5) :
    (updateBlockTimes t s).preferredBlockSize = 5 := by
  unfold updateBlockTimes
  dsimp only
  split_ifs <;> simp [h, minBlockSize]

/-- C5 counterexample: after 15 consecutive 20 ms prepare durations
(three shrink rounds) `preferredBlockSize` is 9, not the 10 the claim's
sequence `19, 15, 12, 10, …` predicts: the third shrink is
`12 - ⌈12·0.2⌉ = 12 - 3 = 9`. -/
theorem feedTwenties_third_shrink_is_nine :
    (feedTwenties 15).preferredBlockSize = 9 ∧
    (feedTwenties 15).preferredBlockSize ≠ 10 := by
  decide

/-- C5 amended: feeding consecutive 20 ms prepare durations at the
current block size shrinks `preferredBlockSize` every 5 durations along
`19 → 15 → 12 → 9 → 7 → 5`, and never below 5 thereafter. -/
theorem feedTwenties_sizes :
    (feedTwenties 0).preferredBlockSize = 19 ∧
    (feedTwenties 5).preferredBlockSize = 15 ∧
    (feedTwenties 10).preferredBlockSize = 12 ∧
    (feedTwenties 15).preferredBlockSize = 9 ∧
    (feedTwenties 20).preferredBlockSize = 7 ∧
    (feedTwenties 25).preferredBlockSize = 5 ∧
    ∀ n, (feedTwenties (25 + n)).preferredBlockSize = 5 := by
  refine ⟨by decide, by decide, by decide, by decide, by decide, by decide, ?_⟩
  intro n
  induction n with
  | zero => decide
  | succ k ih =>
    have h : 25 + (k + 1) = (25 + k) + 1 := by omega
    rw [h]
    exact updateBlockTimes_keeps_min 20 (feedTwenties (25 + k)) ih

/-! ### Block-list structure lemmas -/

theorem blocksWF_tail {N : ℤ} {b : BlockData} {bs : List BlockData}
    (h : blocksWF N (b :: bs)) : blocksWF N bs :=
  ⟨fun x hx => h.1 x (List.mem_cons_of_mem _ hx), h.2.tail⟩

theorem blocksWF_dropWhile {N : ℤ} (p : BlockData → Bool) :
    ∀ {bs : List BlockData}, blocksWF N bs → blocksWF N (bs.dropWhile p)
  | [], h => h
  | b :: bs, h => by
    rw [List.dropWhile_cons]
    split_ifs with hp
    · exact blocksWF_dropWhile p (blocksWF_tail h)
    · exact h

/-- Unfolding equation for `dropLastWhile` on a cons. -/
theorem dropLastWhile_eq (p : α → Bool) (b : α) (bs : List α) :
    dropLastWhile p (b :: bs) =
      match dropLastWhile p bs with
      | [] => if p b then [] else [b]
      | c :: cs => b :: c :: cs := rfl

theorem mem_dropLastWhile {p : α → Bool} :
    ∀ {bs : List α} {x : α}, x ∈ dropLastWhile p bs → x ∈ bs
  | [], x, h => by simpa [dropLastWhile] using h
  | b :: bs, x, h => by
    rw [dropLastWhile_eq] at h
    revert h
    split
    · intro h
      split_ifs at h
      · simp at h
      · simp only [List.mem_singleton] at h
        subst h
        exact List.mem_cons_self ..
    · next c cs hd =>
      intro h
      rcases List.mem_cons.1 h with h1 | h1
      · subst h1
        exact List.mem_cons_self ..
      · have hx : x ∈ dropLastWhile p bs := by rw [hd]; exact h1
        exact List.mem_cons_of_mem _ (mem_dropLastWhile hx)

theorem head?_dropLastWhile (p : α → Bool) (bs : List α) :
    dropLastWhile p bs = [] ∨ (dropLastWhile p bs).head? = bs.head? := by
  cases bs with
  | nil => exact Or.inl rfl
  | cons b t =>
    rw [dropLastWhile_eq]
    split
    · split_ifs
      · exact Or.inl rfl
      · exact Or.inr rfl
    · exact Or.inr rfl

theorem chain'_dropLastWhile {R : α → α → Prop} (p : α → Bool) :
    ∀ {bs : List α}, List.Chain' R bs → List.Chain' R (dropLastWhile p bs)
  | [], h => h
  | b :: t, h => by
    rw [dropLastWhile_eq]
    split
    · split_ifs
      · exact List.chain'_nil
      · exact List.chain'_singleton b
    · next c cs hd =>
      rw [List.chain'_cons']
      refine ⟨?_, ?_⟩
      · intro y hy
        simp only [List.head?_cons, Option.mem_def, Option.some.injEq] at hy
        subst hy
        rcases head?_dropLastWhile p t with h0 | h0
        · rw [h0] at hd
          exact absurd hd (by simp)
        · rw [hd] at h0
          rcases List.chain'_cons'.1 h with ⟨hhd, _⟩
          exact hhd _ h0.symm
      · have htail : List.Chain' R t := h.tail
        have hrec := chain'_dropLastWhile p htail
        rw [hd] at hrec
        exact hrec

theorem blocksWF_dropLastWhile {N : ℤ} (p : BlockData → Bool) {bs : List BlockData}
    (h : blocksWF N bs) : blocksWF N (dropLastWhile p bs) :=
  ⟨fun x hx => h.1 x (mem_dropLastWhile hx), chain'_dropLastWhile p h.2⟩

theorem lastBot_cons_of_ne_nil (b : BlockData) {bs : List BlockData} (h : bs ≠ []) :
    lastBot (b :: bs) = lastBot bs := by
  cases bs with
  | nil => exact absurd rfl h
  | cons c t => rfl

theorem lastBot_append_single (bs : List BlockData) (x : BlockData) :
    lastBot (bs ++ [x]) = x.range.bot := by
  induction bs with
  | nil => rfl
  | cons b t ih =>
    rw [List.cons_append, lastBot_cons_of_ne_nil b (by simp), ih]

theorem lastBot_le {N : ℤ} :
    ∀ {bs : List BlockData}, (∀ b ∈ bs, blockWF N b) → bs ≠ [] → lastBot bs ≤ N
  | [], _, h => absurd rfl h
  | [b], hall, _ => (hall b (by simp)).2.2
  | b :: c :: t, hall, _ => by
    rw [lastBot_cons_of_ne_nil b (by simp)]
    exact lastBot_le (fun x hx => hall x (List.mem_cons_of_mem _ hx)) (by simp)

theorem head_top_lt_lastBot {N : ℤ} :
    ∀ {b : BlockData} {t : List BlockData},
      blocksWF N (b :: t) → b.range.top < lastBot (b :: t)
  | b, [], h => by
    have hb := (h.1 b (by simp)).2.1
    simpa [lastBot] using hb
  | b, c :: t, h => by
    rw [lastBot_cons_of_ne_nil b (by simp)]
    have hbc : b.range.bot = c.range.top := (List.chain'_cons.1 h.2).1
    have hb := (h.1 b (by simp)).2.1
    have hrec := head_top_lt_lastBot (blocksWF_tail h)
    omega

/-! ### `Range` bridges -/

theorem containsRange_iff_of_ne (cov targ : Range) (hne : targ.top < targ.bot) :
    cov.containsRange targ = true ↔ cov.top ≤ targ.top ∧ targ.bot ≤ cov.bot := by
  unfold Range.containsRange Range.containsNum Range.height
  have h0 : ¬ (targ.bot - targ.top = 0) := by omega
  simp only [h0, if_false, Bool.and_eq_true, decide_eq_true_eq]
  omega

theorem containsRange_of_empty (cov targ : Range) (h : targ.top = targ.bot) :
    cov.containsRange targ = true := by
  have h0 : targ.bot - targ.top = 0 := by omega
  simp [Range.containsRange, Range.height, h0]

theorem clampTo_zero_N (r : Range) (N : ℤ) (h : max 0 r.top ≤ min N r.bot) :
    r.clampTo ⟨0, N⟩ = ⟨max 0 r.top, min N r.bot⟩ := by
  unfold Range.clampTo
  dsimp only
  split_ifs with h1 h2 h3 <;> simp only [Range.mk.injEq] <;> omega

theorem getCoveredRange_cons (b : BlockData) (t : List BlockData) :
    getCoveredRange (b :: t) = ⟨b.range.top, lastBot (b :: t)⟩ := rfl

theorem getCoveredRange_bot {bs : List BlockData} (h : bs ≠ []) :
    (getCoveredRange bs).bot = lastBot bs := by
  cases bs with
  | nil => exact absurd rfl h
  | cons b t => rfl

theorem lastBot_pos {N : ℤ} {b : BlockData} {t : List BlockData}
    (h : blocksWF N (b :: t)) : 0 < lastBot (b :: t) := by
  have h1 := head_top_lt_lastBot h
  have h2 := (h.1 b (by simp)).1
  omega

theorem getLast?_bot : ∀ (bs : List BlockData), bs ≠ [] →
    ∃ x, bs.getLast? = some x ∧ x.range.bot = lastBot bs
  | [], h => absurd rfl h
  | [b], _ => ⟨b, rfl, rfl⟩
  | b :: c :: t, _ => by
    obtain ⟨x, hx1, hx2⟩ := getLast?_bot (c :: t) (by simp)
    exact ⟨x, by rw [List.getLast?_cons_cons]; exact hx1,
      by rw [lastBot_cons_of_ne_nil b (by simp)]; exact hx2⟩

/-! ### The block-adding operations -/

/-- Evaluate `createBlockClamped` when the clamp does not collapse. -/
theorem createBlockClamped_eval (N top bot : ℤ) (h1 : max 0 top ≤ min N bot) :
    createBlockClamped N ⟨top, bot⟩ =
      { range := ⟨max 0 top, min N bot⟩, prepared := false } := by
  unfold createBlockClamped
  rw [clampTo_zero_N _ _ h1]

theorem addBlockAtStart_spec {N : ℤ} {s : BlockSetState} {b : BlockData}
    {t : List BlockData} (hbs : s.blocks = b :: t) (hwf : blocksWF N s.blocks)
    (hsz : 1 ≤ s.preferredBlockSize) (hpos : 0 < b.range.top) :
    (addBlockAtStart N s).blocks =
      { range := ⟨max 0 (b.range.top - s.preferredBlockSize), b.range.top⟩
        prepared := false } :: b :: t ∧
    blocksWF N (addBlockAtStart N s).blocks := by
  have hb := hwf.1 b (by rw [hbs]; exact List.mem_cons_self ..)
  unfold blockWF at hb
  obtain ⟨hb1, hb2, hb3⟩ := hb
  have h1 : (addBlockAtStart N s).blocks =
      createBlockClamped N ⟨(getCoveredRange s.blocks).top - s.preferredBlockSize,
        (getCoveredRange s.blocks).top⟩ :: s.blocks := rfl
  rw [hbs] at h1
  have h2 : (getCoveredRange (b :: t)).top = b.range.top := rfl
  rw [h2] at h1
  have h3 := createBlockClamped_eval N (b.range.top - s.preferredBlockSize) b.range.top
    (by rw [max_le_iff, le_min_iff, le_min_iff]; omega)
  have hmin : min N b.range.top = b.range.top := by omega
  rw [h3, hmin] at h1
  refine ⟨h1, ?_⟩
  rw [h1]
  have hwf' : blocksWF N (b :: t) := hbs ▸ hwf
  constructor
  · intro x hx
    rcases List.mem_cons.1 hx with hx | hx
    · subst hx
      refine ⟨?_, ?_, ?_⟩
      · show (0 : ℤ) ≤ max 0 (b.range.top - s.preferredBlockSize)
        exact le_max_left ..
      · show max 0 (b.range.top - s.preferredBlockSize) < b.range.top
        rw [max_lt_iff]
        omega
      · show b.range.top ≤ N
        omega
    · exact hwf'.1 x hx
  · rw [List.chain'_cons']
    refine ⟨?_, hwf'.2⟩
    intro y hy
    simp only [List.head?_cons, Option.mem_def, Option.some.injEq] at hy
    subst hy
    rfl

theorem addBlockAtStart_covBot {N : ℤ} {s : BlockSetState} (h : s.blocks ≠ []) :
    covBot (addBlockAtStart N s) = covBot s := by
  unfold covBot
  have h1 : (addBlockAtStart N s).blocks =
      createBlockClamped N ⟨(getCoveredRange s.blocks).top - s.preferredBlockSize,
        (getCoveredRange s.blocks).top⟩ :: s.blocks := rfl
  rw [h1, lastBot_cons_of_ne_nil _ h]

theorem addBlockAtStart_fields {N : ℤ} {s : BlockSetState} :
    (addBlockAtStart N s).targetRange = s.targetRange ∧
    (addBlockAtStart N s).preferredBlockSize = s.preferredBlockSize ∧
    (addBlockAtStart N s).targetRow = s.targetRow := ⟨rfl, rfl, rfl⟩

theorem addBlockAtEnd_spec {N : ℤ} {s : BlockSetState} {b : BlockData}
    {t : List BlockData} (hbs : s.blocks = b :: t) (hwf : blocksWF N s.blocks)
    (hsz : 1 ≤ s.preferredBlockSize) (hlt : lastBot s.blocks < N) :
    (addBlockAtEnd N s).blocks =
      s.blocks ++
        [{ range := ⟨lastBot s.blocks, min N (lastBot s.blocks + s.preferredBlockSize)⟩
           prepared := false }] ∧
    blocksWF N (addBlockAtEnd N s).blocks := by
  have hwf' : blocksWF N (b :: t) := hbs ▸ hwf
  have hpos : 0 < lastBot s.blocks := by rw [hbs]; exact lastBot_pos hwf'
  have h1 : (addBlockAtEnd N s).blocks =
      s.blocks ++ [createBlockClamped N ⟨(getCoveredRange s.blocks).bot,
        (getCoveredRange s.blocks).bot + s.preferredBlockSize⟩] := rfl
  rw [getCoveredRange_bot (by rw [hbs]; simp)] at h1
  have h3 := createBlockClamped_eval N (lastBot s.blocks)
    (lastBot s.blocks + s.preferredBlockSize)
    (by rw [max_le_iff, le_min_iff, le_min_iff]; omega)
  have hmax : max 0 (lastBot s.blocks) = lastBot s.blocks := by omega
  rw [h3, hmax] at h1
  refine ⟨h1, ?_⟩
  rw [h1]
  constructor
  · intro x hx
    rcases List.mem_append.1 hx with hx | hx
    · exact hwf.1 x hx
    · simp only [List.mem_singleton] at hx
      subst hx
      refine ⟨?_, ?_, ?_⟩
      · show (0 : ℤ) ≤ lastBot s.blocks
        omega
      · show lastBot s.blocks < min N (lastBot s.blocks + s.preferredBlockSize)
        rw [lt_min_iff]
        omega
      · show min N (lastBot s.blocks + s.preferredBlockSize) ≤ N
        exact min_le_left ..
  · rw [List.chain'_append]
    refine ⟨hwf.2, List.chain'_singleton _, ?_⟩
    intro x hx y hy
    obtain ⟨x', hx'1, hx'2⟩ := getLast?_bot s.blocks (by rw [hbs]; simp)
    rw [hx'1] at hx
    simp only [Option.mem_def, Option.some.injEq] at hx hy
    simp only [List.head?_cons, Option.some.injEq] at hy
    subst hx
    subst hy
    exact hx'2

theorem addBlockAtEnd_covTop {N : ℤ} {s : BlockSetState} {b : BlockData}
    {t : List BlockData} (hbs : s.blocks = b :: t) :
    covTop (addBlockAtEnd N s) = covTop s := by
  unfold covTop
  have h1 : (addBlockAtEnd N s).blocks =
      s.blocks ++ [createBlockClamped N ⟨(getCoveredRange s.blocks).bot,
        (getCoveredRange s.blocks).bot + s.preferredBlockSize⟩] := rfl
  rw [h1, hbs, List.cons_append]
  rfl

theorem addBlockAtEnd_covBot {N : ℤ} {s : BlockSetState} :
    covBot (addBlockAtEnd N s) =
      (createBlockClamped N ⟨(getCoveredRange s.blocks).bot,
        (getCoveredRange s.blocks).bot + s.preferredBlockSize⟩).range.bot := by
  unfold covBot
  exact lastBot_append_single ..

theorem addBlockAtEnd_fields {N : ℤ} {s : BlockSetState} :
    (addBlockAtEnd N s).targetRange = s.targetRange ∧
    (addBlockAtEnd N s).preferredBlockSize = s.preferredBlockSize ∧
    (addBlockAtEnd N s).targetRow = s.targetRow := ⟨rfl, rfl, rfl⟩

theorem makeFirstBlockAt_spec {N : ℤ} {s : BlockSetState}
    (hsz : 1 ≤ s.preferredBlockSize) (hf0 : 0 ≤ s.targetRow) (hfN : s.targetRow < N) :
    blocksWF N (makeFirstBlockAt N (s.targetRow - s.preferredBlockSize / 2) s).blocks ∧
    (makeFirstBlockAt N (s.targetRow - s.preferredBlockSize / 2) s).blocks ≠ [] := by
  have hhalf : s.preferredBlockSize / 2 < s.preferredBlockSize := by omega
  have h3 := createBlockClamped_eval N (s.targetRow - s.preferredBlockSize / 2)
    (s.targetRow - s.preferredBlockSize / 2 + s.preferredBlockSize)
    (by rw [max_le_iff, le_min_iff, le_min_iff]; omega)
  have h1 : (makeFirstBlockAt N (s.targetRow - s.preferredBlockSize / 2) s).blocks =
      [createBlockClamped N ⟨s.targetRow - s.preferredBlockSize / 2,
        s.targetRow - s.preferredBlockSize / 2 + s.preferredBlockSize⟩] := rfl
  rw [h3] at h1
  rw [h1]
  refine ⟨⟨?_, List.chain'_singleton _⟩, by simp⟩
  intro x hx
  simp only [List.mem_singleton] at hx
  subst hx
  refine ⟨?_, ?_, ?_⟩
  · show (0 : ℤ) ≤ max 0 (s.targetRow - s.preferredBlockSize / 2)
    exact le_max_left ..
  · show max 0 (s.targetRow - s.preferredBlockSize / 2) <
      min N (s.targetRow - s.preferredBlockSize / 2 + s.preferredBlockSize)
    rw [max_lt_iff, lt_min_iff, lt_min_iff]
    omega
  · show min N (s.targetRow - s.preferredBlockSize / 2 + s.preferredBlockSize) ≤ N
    exact min_le_left ..

/-- Source: `ensurePre` establishes the loop invariant: after freeing and the
empty-set re-seed the block list is well-formed and nonempty, and the
`setTarget`-written fields are untouched. -/
theorem ensurePre_spec {N : ℤ} {s : BlockSetState}
    (hwf : blocksWF N s.blocks) (hsz : 1 ≤ s.preferredBlockSize)
    (hf0 : 0 ≤ s.targetRow) (hfN : s.targetRow < N)
    (ht0 : 0 ≤ s.targetRange.top) (htb : s.targetRange.top ≤ s.targetRange.bot)
    (htN : s.targetRange.bot ≤ N) :
    LoopInv N (ensurePre N s) ∧
    (ensurePre N s).targetRange = s.targetRange ∧
    (ensurePre N s).preferredBlockSize = s.preferredBlockSize ∧
    (ensurePre N s).targetRow = s.targetRow := by
  unfold ensurePre
  dsimp only
  set bs2 := dropLastWhile (fun b => decide (s.leaveRange.bot ≤ b.range.top))
    (s.blocks.dropWhile fun b => decide (b.range.bot ≤ s.leaveRange.top)) with hbs2
  have hwf2 : blocksWF N bs2 := blocksWF_dropLastWhile _ (blocksWF_dropWhile _ hwf)
  by_cases hemp : bs2.isEmpty
  · rw [if_pos hemp]
    have hmk := makeFirstBlockAt_spec (s := { s with blocks := bs2 }) hsz hf0 hfN
    exact ⟨⟨hmk.1, hmk.2, hsz, ht0, htb, htN⟩, rfl, rfl, rfl⟩
  · rw [if_neg hemp]
    have hne : bs2 ≠ [] := by
      intro h
      rw [h] at hemp
      exact hemp rfl
    exact ⟨⟨hwf2, hne, hsz, ht0, htb, htN⟩, rfl, rfl, rfl⟩

/-! ### The cover loop -/

theorem ensureStep_covered {N : ℤ} {s : BlockSetState}
    (h : (getCoveredRange s.blocks).containsRange s.targetRange = true) :
    ensureStep N s = s := by
  unfold ensureStep
  dsimp only
  rw [if_pos h]

theorem ensureStep_not_covered {N : ℤ} {s : BlockSetState} (hinv : LoopInv N s)
    (h : ¬ (getCoveredRange s.blocks).containsRange s.targetRange = true) :
    LoopInv N (ensureStep N s) ∧
    (ensureStep N s).targetRange = s.targetRange ∧
    (ensureStep N s).preferredBlockSize = s.preferredBlockSize ∧
    covTop (ensureStep N s) = (if s.targetRange.top < covTop s
      then max 0 (covTop s - s.preferredBlockSize) else covTop s) ∧
    covBot (ensureStep N s) = (if covBot s < s.targetRange.bot
      then min N (covBot s + s.preferredBlockSize) else covBot s) := by
  obtain ⟨hwf, hne, hsz, ht0, htb, htN⟩ := hinv
  obtain ⟨b, t, hbs⟩ : ∃ b t, s.blocks = b :: t := by
    cases hbsc : s.blocks with
    | nil => exact absurd hbsc hne
    | cons b t => exact ⟨b, t, rfl⟩
  have hstep : ensureStep N s =
      (if (getCoveredRange s.blocks).bot < s.targetRange.bot
       then addBlockAtEnd N (if s.targetRange.top < (getCoveredRange s.blocks).top
         then addBlockAtStart N s else s)
       else (if s.targetRange.top < (getCoveredRange s.blocks).top
         then addBlockAtStart N s else s)) := by
    unfold ensureStep
    dsimp only
    rw [if_neg h]
  have hcrt : (getCoveredRange s.blocks).top = covTop s := rfl
  have hcrb : (getCoveredRange s.blocks).bot = covBot s :=
    getCoveredRange_bot (by rw [hbs]; simp)
  have hcovt : covTop s = b.range.top := by rw [covTop, hbs]; rfl
  have hsne : s.blocks ≠ [] := by rw [hbs]; simp
  rw [hcrt, hcrb] at hstep
  by_cases hc1 : s.targetRange.top < covTop s <;>
    by_cases hc2 : covBot s < s.targetRange.bot
  · -- prepend and append
    rw [if_pos hc1, if_pos hc2] at hstep
    have hpos : 0 < b.range.top := by omega
    obtain ⟨hbs1, hwf1⟩ := addBlockAtStart_spec hbs hwf hsz hpos
    have hcovT1 : covTop (addBlockAtStart N s) =
        max 0 (covTop s - s.preferredBlockSize) := by
      show (getCoveredRange (addBlockAtStart N s).blocks).top = _
      rw [hbs1, hcovt]
      rfl
    have hcovB1 : covBot (addBlockAtStart N s) = covBot s :=
      addBlockAtStart_covBot hsne
    have hlt1 : lastBot (addBlockAtStart N s).blocks < N := by
      have : lastBot (addBlockAtStart N s).blocks = covBot s := hcovB1
      omega
    obtain ⟨hbs2, hwf2⟩ := addBlockAtEnd_spec hbs1 hwf1 hsz hlt1
    have hcovT2 : covTop (ensureStep N s) = max 0 (covTop s - s.preferredBlockSize) := by
      rw [hstep, addBlockAtEnd_covTop hbs1, hcovT1]
    have hcovB2 : covBot (ensureStep N s) = min N (covBot s + s.preferredBlockSize) := by
      have hlb1 : lastBot (addBlockAtStart N s).blocks = covBot s := hcovB1
      rw [hstep]
      show lastBot (addBlockAtEnd N (addBlockAtStart N s)).blocks = _
      rw [hbs2, lastBot_append_single]
      show min N (lastBot (addBlockAtStart N s).blocks + s.preferredBlockSize) = _
      rw [hlb1]
    refine ⟨⟨?_, ?_, ?_, ?_, ?_, ?_⟩, ?_, ?_, ?_, ?_⟩
    · rw [hstep]; exact hwf2
    · rw [hstep, hbs2, hbs1]; simp
    · rw [hstep]; exact hsz
    · rw [hstep]; exact ht0
    · rw [hstep]; exact htb
    · rw [hstep]; exact htN
    · rw [hstep]; rfl
    · rw [hstep]; rfl
    · rw [hcovT2, if_pos hc1]
    · rw [hcovB2, if_pos hc2]
  · -- prepend only
    rw [if_pos hc1, if_neg hc2] at hstep
    have hpos : 0 < b.range.top := by omega
    obtain ⟨hbs1, hwf1⟩ := addBlockAtStart_spec hbs hwf hsz hpos
    have hcovT1 : covTop (addBlockAtStart N s) =
        max 0 (covTop s - s.preferredBlockSize) := by
      show (getCoveredRange (addBlockAtStart N s).blocks).top = _
      rw [hbs1, hcovt]
      rfl
    have hcovB1 : covBot (addBlockAtStart N s) = covBot s :=
      addBlockAtStart_covBot hsne
    refine ⟨⟨?_, ?_, ?_, ?_, ?_, ?_⟩, ?_, ?_, ?_, ?_⟩
    · rw [hstep]; exact hwf1
    · rw [hstep, hbs1]; simp
    · rw [hstep]; exact hsz
    · rw [hstep]; exact ht0
    · rw [hstep]; exact htb
    · rw [hstep]; exact htN
    · rw [hstep]; rfl
    · rw [hstep]; rfl
    · rw [hstep, hcovT1, if_pos hc1]
    · rw [hstep, hcovB1, if_neg hc2]
  · -- append only
    rw [if_neg hc1, if_pos hc2] at hstep
    have hlt1 : lastBot s.blocks < N := by
      have : lastBot s.blocks = covBot s := rfl
      omega
    obtain ⟨hbs2, hwf2⟩ := addBlockAtEnd_spec hbs hwf hsz hlt1
    have hcovT2 : covTop (ensureStep N s) = covTop s := by
      rw [hstep, addBlockAtEnd_covTop hbs]
    have hcovB2 : covBot (ensureStep N s) = min N (covBot s + s.preferredBlockSize) := by
      rw [hstep]
      show lastBot (addBlockAtEnd N s).blocks = _
      rw [hbs2, lastBot_append_single]
      rfl
    refine ⟨⟨?_, ?_, ?_, ?_, ?_, ?_⟩, ?_, ?_, ?_, ?_⟩
    · rw [hstep]; exact hwf2
    · rw [hstep, hbs2, hbs]; simp
    · rw [hstep]; exact hsz
    · rw [hstep]; exact ht0
    · rw [hstep]; exact htb
    · rw [hstep]; exact htN
    · rw [hstep]; rfl
    · rw [hstep]; rfl
    · rw [hcovT2, if_neg hc1]
    · rw [hcovB2, if_pos hc2]
  · -- no change
    rw [if_neg hc1, if_neg hc2] at hstep
    rw [hstep]
    exact ⟨⟨hwf, hsne, hsz, ht0, htb, htN⟩, rfl, rfl,
      by rw [if_neg hc1], by rw [if_neg hc2]⟩

theorem ensureLoop_spec {N : ℤ} :
    ∀ (k : ℕ) {s : BlockSetState}, LoopInv N s →
      LoopInv N (ensureLoop N k s) ∧
      (ensureLoop N k s).targetRange = s.targetRange ∧
      (ensureLoop N k s).preferredBlockSize = s.preferredBlockSize
  | 0, s, h => ⟨h, rfl, rfl⟩
  | k + 1, s, h => by
    show LoopInv N (ensureLoop N k (ensureStep N s)) ∧
      (ensureLoop N k (ensureStep N s)).targetRange = s.targetRange ∧
      (ensureLoop N k (ensureStep N s)).preferredBlockSize = s.preferredBlockSize
    by_cases hcov : (getCoveredRange s.blocks).containsRange s.targetRange = true
    · rw [ensureStep_covered hcov]
      exact ensureLoop_spec k h
    · have hstep := ensureStep_not_covered h hcov
      have hrec := ensureLoop_spec k hstep.1
      exact ⟨hrec.1, hrec.2.1.trans hstep.2.1, hrec.2.2.trans hstep.2.2.1⟩

theorem ensureLoop_front {N : ℤ} :
    ∀ (k : ℕ) {s : BlockSetState}, LoopInv N s →
      s.targetRange.top < s.targetRange.bot →
      covTop s - (k : ℤ) * s.preferredBlockSize ≤ s.targetRange.top →
      covTop (ensureLoop N k s) ≤ s.targetRange.top
  | 0, s, _, _, hk => by simpa using hk
  | k + 1, s, hinv, hne, hk => by
    have hsz : 1 ≤ s.preferredBlockSize := hinv.2.2.1
    have ht0 : 0 ≤ s.targetRange.top := hinv.2.2.2.1
    have hknn : 0 ≤ (k : ℤ) * s.preferredBlockSize :=
      mul_nonneg (Int.natCast_nonneg k) (by omega)
    have hks : ((k + 1 : ℕ) : ℤ) * s.preferredBlockSize =
        (k : ℤ) * s.preferredBlockSize + s.preferredBlockSize := by
      push_cast
      ring
    show covTop (ensureLoop N k (ensureStep N s)) ≤ s.targetRange.top
    by_cases hcov : (getCoveredRange s.blocks).containsRange s.targetRange = true
    · have hct : covTop s ≤ s.targetRange.top :=
        ((containsRange_iff_of_ne _ _ hne).1 hcov).1
      rw [ensureStep_covered hcov]
      exact ensureLoop_front k hinv hne (by linarith)
    · have hstep := ensureStep_not_covered hinv hcov
      have hyp : covTop (ensureStep N s) -
          (k : ℤ) * (ensureStep N s).preferredBlockSize ≤
          (ensureStep N s).targetRange.top := by
        rw [hstep.2.1, hstep.2.2.1, hstep.2.2.2.1]
        rw [hks] at hk
        split_ifs with hc
        · rcases le_total (covTop s - s.preferredBlockSize) 0 with h0 | h0
          · rw [max_eq_left h0]
            linarith
          · rw [max_eq_right h0]
            linarith
        · push_neg at hc
          linarith
      have h1 := ensureLoop_front k hstep.1 (by rw [hstep.2.1]; exact hne) hyp
      rw [hstep.2.1] at h1
      exact h1

theorem ensureLoop_back {N : ℤ} :
    ∀ (k : ℕ) {s : BlockSetState}, LoopInv N s →
      s.targetRange.top < s.targetRange.bot →
      s.targetRange.bot ≤ covBot s + (k : ℤ) * s.preferredBlockSize →
      s.targetRange.bot ≤ covBot (ensureLoop N k s)
  | 0, s, _, _, hk => by simpa using hk
  | k + 1, s, hinv, hne, hk => by
    have hsz : 1 ≤ s.preferredBlockSize := hinv.2.2.1
    have htN : s.targetRange.bot ≤ N := hinv.2.2.2.2.2
    have hknn : 0 ≤ (k : ℤ) * s.preferredBlockSize :=
      mul_nonneg (Int.natCast_nonneg k) (by omega)
    have hks : ((k + 1 : ℕ) : ℤ) * s.preferredBlockSize =
        (k : ℤ) * s.preferredBlockSize + s.preferredBlockSize := by
      push_cast
      ring
    show s.targetRange.bot ≤ covBot (ensureLoop N k (ensureStep N s))
    by_cases hcov : (getCoveredRange s.blocks).containsRange s.targetRange = true
    · have hcb : s.targetRange.bot ≤ covBot s := by
        have hval := ((containsRange_iff_of_ne _ _ hne).1 hcov).2
        rw [getCoveredRange_bot hinv.2.1] at hval
        exact hval
      rw [ensureStep_covered hcov]
      exact ensureLoop_back k hinv hne (by linarith)
    · have hstep := ensureStep_not_covered hinv hcov
      have hyp : (ensureStep N s).targetRange.bot ≤
          covBot (ensureStep N s) + (k : ℤ) * (ensureStep N s).preferredBlockSize := by
        rw [hstep.2.1, hstep.2.2.1, hstep.2.2.2.2]
        rw [hks] at hk
        split_ifs with hc
        · rcases le_total N (covBot s + s.preferredBlockSize) with h0 | h0
          · rw [min_eq_left h0]
            linarith
          · rw [min_eq_right h0]
            linarith
        · push_neg at hc
          linarith
      have h1 := ensureLoop_back k hstep.1 (by rw [hstep.2.1]; exact hne) hyp
      rw [hstep.2.1] at h1
      exact h1

/-! ### `setTarget` -/

theorem setTargetFields_blocks (N : ℤ) (r : Range) (f : ℤ) (s : BlockSetState) :
    (setTargetFields N r f s).blocks = s.blocks := rfl

theorem setTargetFields_size (N : ℤ) (r : Range) (f : ℤ) (s : BlockSetState) :
    (setTargetFields N r f s).preferredBlockSize = s.preferredBlockSize := rfl

theorem setTargetFields_targ (N : ℤ) (r : Range) (f : ℤ) (s : BlockSetState) :
    (setTargetFields N r f s).targetRange = r := rfl

theorem setTargetFields_row (N : ℤ) (r : Range) (f : ℤ) (s : BlockSetState) :
    (setTargetFields N r f s).targetRow = f := rfl

/-- Under a valid call the `leaveRange` written by `setTarget` contains
the target range, so the `debug()` sanity check in `ensureCovers` never
throws. -/
theorem setTargetFields_leave {N : ℤ} {r : Range} {f : ℤ} (s : BlockSetState)
    (hv : ValidCall N r f) :
    (setTargetFields N r f s).leaveRange.containsRange r = true := by
  obtain ⟨h1, h2, h3, _, _⟩ := hv
  rw [setTargetFields_eval]
  dsimp only
  have hh : r.height = r.bot - r.top := rfl
  set jt := (6 * r.top - 2 * r.height + 3) / 6 with hjt
  set jb := (6 * r.bot + 2 * r.height + 3) / 6 with hjb
  have hjt2 : jt ≤ r.top := by rw [hjt]; omega
  have hjb2 : r.bot ≤ jb := by rw [hjb]; omega
  rcases eq_or_lt_of_le h2 with heq | hlt
  · exact containsRange_of_empty _ _ heq
  · rw [clampTo_zero_N _ _ (by
      show max 0 jt ≤ min N jb
      rw [max_le_iff, le_min_iff, le_min_iff]
      omega)]
    rw [containsRange_iff_of_ne _ _ hlt]
    show max 0 jt ≤ r.top ∧ r.bot ≤ min N jb
    rw [max_le_iff, le_min_iff]
    omega

theorem setTarget_SInv {N : ℤ} {s : BlockSetState} {r : Range} {f : ℤ}
    (hs : SInv N s) (hv : ValidCall N r f) :
    SInv N (setTarget N r f s) ∧
    (setTarget N r f s).preferredBlockSize = s.preferredBlockSize ∧
    (setTarget N r f s).targetRange = r := by
  obtain ⟨hwf, hsz⟩ := hs
  obtain ⟨h1, h2, h3, h4, h5⟩ := hv
  unfold setTarget ensureCovers
  split_ifs with hc1 hc2
  · exact ⟨⟨hwf, hsz⟩, rfl, rfl⟩
  · exact ⟨⟨hwf, hsz⟩, rfl, rfl⟩
  · have hpre := ensurePre_spec (s := setTargetFields N r f s)
      hwf hsz h4 h5 h1 h2 h3
    have hloop := ensureLoop_spec 10 hpre.1
    refine ⟨⟨hloop.1.1, ?_⟩, ?_, ?_⟩
    · rw [hloop.2.2, hpre.2.2.1]
      exact hsz
    · rw [hloop.2.2, hpre.2.2.1]
      rfl
    · rw [hloop.2.1, hpre.2.1]
      rfl

/-- Coverage: when at most 10 front extensions and 10 back extensions
(of `preferredBlockSize` rows each) suffice from the post-free/re-seed
state, `setTarget` leaves the target range covered. -/
theorem setTarget_covers {N : ℤ} {s : BlockSetState} {r : Range} {f : ℤ}
    (hs : SInv N s) (hv : ValidCall N r f)
    (hfront : covTop (ensurePre N (setTargetFields N r f s)) -
      10 * s.preferredBlockSize ≤ r.top)
    (hback : r.bot ≤ covBot (ensurePre N (setTargetFields N r f s)) +
      10 * s.preferredBlockSize) :
    (getCoveredRange (setTarget N r f s).blocks).containsRange r = true := by
  obtain ⟨hwf, hsz⟩ := hs
  obtain ⟨h1, h2, h3, h4, h5⟩ := hv
  by_cases hr : r.top = r.bot
  · exact containsRange_of_empty _ _ hr
  have hlt : r.top < r.bot := lt_of_le_of_ne h2 hr
  unfold setTarget ensureCovers
  split_ifs with hc1 hc2
  · exact hc1
  · exfalso
    have hleave := setTargetFields_leave (N := N) (r := r) (f := f) s ⟨h1, h2, h3, h4, h5⟩
    rw [setTargetFields_targ] at hc2
    simp [hleave] at hc2
  · have hpre := ensurePre_spec (s := setTargetFields N r f s)
      hwf hsz h4 h5 h1 h2 h3
    have hinvp := hpre.1
    have htargp : (ensurePre N (setTargetFields N r f s)).targetRange = r := by
      rw [hpre.2.1, setTargetFields_targ]
    have hsizep : (ensurePre N (setTargetFields N r f s)).preferredBlockSize =
        s.preferredBlockSize := by
      rw [hpre.2.2.1, setTargetFields_size]
    have hcast : ((10 : ℕ) : ℤ) = (10 : ℤ) := by norm_num
    have hcov1 := ensureLoop_front 10 hinvp (by rw [htargp]; exact hlt)
      (by rw [htargp, hsizep, hcast]; exact hfront)
    have hcov2 := ensureLoop_back 10 hinvp (by rw [htargp]; exact hlt)
      (by rw [htargp, hsizep, hcast]; exact hback)
    rw [htargp] at hcov1 hcov2
    have hloop := ensureLoop_spec 10 hinvp
    rw [containsRange_iff_of_ne _ _ hlt]
    constructor
    · exact hcov1
    · rw [getCoveredRange_bot hloop.1.2.1]
      exact hcov2

theorem chain'_top_lt {N : ℤ} :
    ∀ {bs : List BlockData}, blocksWF N bs →
      List.Chain' (fun a b => a.range.top < b.range.top) bs
  | [], _ => List.chain'_nil
  | [b], _ => List.chain'_singleton b
  | a :: b :: t, h => by
    rw [List.chain'_cons]
    have hab : a.range.bot = b.range.top := (List.chain'_cons.1 h.2).1
    have ha := h.1 a (by simp)
    unfold blockWF at ha
    exact ⟨by omega, chain'_top_lt (blocksWF_tail h)⟩

theorem SInv_init (N : ℤ) : SInv N BlockSetImpl.init := by
  refine ⟨⟨?_, ?_⟩, ?_⟩
  · intro b hb
    simp [BlockSetImpl.init] at hb
  · show List.Chain' _ ([] : List BlockData)
    exact List.chain'_nil
  · show (1 : ℤ) ≤ initialBlockSize
    norm_num [initialBlockSize]

theorem runCalls_SInv_aux {N : ℤ} :
    ∀ (calls : List (Range × ℤ)) (s : BlockSetState), SInv N s →
      (∀ c ∈ calls, ValidCall N c.1 c.2) →
      SInv N (calls.foldl (fun s c => setTarget N c.1 c.2 s) s)
  | [], _, hs, _ => hs
  | c :: cs, s, hs, hc => by
    rw [List.foldl_cons]
    exact runCalls_SInv_aux cs _ ((setTarget_SInv hs (hc c (by simp))).1)
      fun d hd => hc d (List.mem_cons_of_mem _ hd)

theorem runCalls_SInv {N : ℤ} (calls : List (Range × ℤ))
    (h : ∀ c ∈ calls, ValidCall N c.1 c.2) : SInv N (runCalls N calls) :=
  runCalls_SInv_aux calls BlockSetImpl.init (SInv_init N) h

/-- C1 (amended): for any sequence of `setTarget` calls with target
ranges inside `[0, N)` *and in-bounds focal rows*, the live blocks always
form a contiguous (`bot = next.top`), strictly ordered (tops strictly
increasing) list of nonempty blocks with ranges inside `[0, N)`; and
after the last call the covered range contains the target *provided* at
most 10 block prepends and 10 block appends suffice from the
post-free/re-seed state — the bound the source's 10-iteration runaway
safeguard imposes.  (Without the proviso the claim fails: see the
counterexample; without the focal-row bound even contiguity fails, since
`makeFirstBlockAt` then creates a clamp-collapsed block disjoint from
later ones.) -/
theorem setTarget_settles (N : ℤ) (calls : List (Range × ℤ)) (r : Range) (f : ℤ)
    (hcalls : ∀ c ∈ calls, ValidCall N c.1 c.2) (hv : ValidCall N r f)
    (hfront : covTop (ensurePre N (setTargetFields N r f (runCalls N calls))) -
      10 * (runCalls N calls).preferredBlockSize ≤ r.top)
    (hback : r.bot ≤ covBot (ensurePre N (setTargetFields N r f (runCalls N calls))) +
      10 * (runCalls N calls).preferredBlockSize) :
    blocksWF N (setTarget N r f (runCalls N calls)).blocks ∧
    List.Chain' (fun a b => a.range.top < b.range.top)
      (setTarget N r f (runCalls N calls)).blocks ∧
    (setTarget N r f (runCalls N calls)).targetRange = r ∧
    (getCoveredRange (setTarget N r f (runCalls N calls)).blocks).containsRange r =
      true := by
  have hs := runCalls_SInv calls hcalls
  have h1 := setTarget_SInv hs hv
  have h2 := setTarget_covers hs hv hfront hback
  exact ⟨h1.1.1, chain'_top_lt h1.1.1, h1.2.2, h2⟩

/-- C1 witness: a single valid call on a fresh set (`N = 1000`,
`setTarget(Range(100,130), 115)`) ends with the target covered. -/
theorem setTarget_settles_witness :
    (getCoveredRange (setTarget 1000 ⟨100, 130⟩ 115
      (runCalls 1000 [])).blocks).containsRange ⟨100, 130⟩ = true :=
  (setTarget_settles 1000 [] ⟨100, 130⟩ 115 (by simp) (by decide)
    (by simp only [runCalls, List.foldl_nil, setTargetFields_eval]; decide)
    (by simp only [runCalls, List.foldl_nil, setTargetFields_eval]; decide)).2.2.2

/-- C1 counterexample: the claim as stated (no safety-cap proviso)
fails.  With `N = 1000` and a fresh block set, the single valid call
`setTarget(Range(0,500), 250)` settles with covered range `[51, 450)`:
the 10-iteration cap of `ensureCovers` is exhausted before the 500-row
target is covered, so the blocks do *not* cover a superset of
`targetRange`. -/
theorem ensureCovers_cap_uncovered :
    (runCalls 1000 [(⟨0, 500⟩, 250)]).targetRange = ⟨0, 500⟩ ∧
    ValidCall 1000 ⟨0, 500⟩ 250 ∧
    getCoveredRange (runCalls 1000 [(⟨0, 500⟩, 250)]).blocks = ⟨51, 450⟩ ∧
    (getCoveredRange (runCalls 1000 [(⟨0, 500⟩, 250)]).blocks).containsRange
      ⟨0, 500⟩ = false := by
  simp only [runCalls, List.foldl_cons, List.foldl_nil, setTarget, setTargetFields_eval]
  decide

/-- C2 (amended): as long as `setTarget` is invoked with ranges inside
`[0, N)` and in-bounds focal rows (as `LongScroll.updateViewport` does),
every block ever in the list has a nonempty range clamped inside
`[0, N)` — no block of height 0 is created.  `createBlockClamped` itself
has no guard for an empty clamp result, and an out-of-range focal row
does produce a height-0 block (see the counterexample). -/
theorem runCalls_blocks_nonempty (N : ℤ) (calls : List (Range × ℤ))
    (hcalls : ∀ c ∈ calls, ValidCall N c.1 c.2) :
    ∀ b ∈ (runCalls N calls).blocks,
      0 < b.range.height ∧ 0 ≤ b.range.top ∧ b.range.bot ≤ N := by
  intro b hb
  have h := (runCalls_SInv calls hcalls).1.1 b hb
  unfold blockWF at h
  have hh : b.range.height = b.range.bot - b.range.top := rfl
  omega

/-- C2 witness: after `setTarget(Range(100,130), 115)` with `N = 1000`
the first live block is `[87, 106)`; it is nonempty and in bounds. -/
theorem runCalls_blocks_nonempty_witness :
    0 < (Range.mk 87 106).height ∧ 0 ≤ (Range.mk 87 106).top ∧
      (Range.mk 87 106).bot ≤ 1000 :=
  runCalls_blocks_nonempty 1000 [(⟨100, 130⟩, 115)] (by decide)
    ⟨⟨87, 106⟩, false⟩
    (by
      simp only [runCalls, List.foldl_cons, List.foldl_nil, setTarget,
        setTargetFields_eval]
      decide)

/-- C2 counterexample: `createBlockClamped` constructs a block even when
the clamp collapses to an empty range.  With `N = 200` and a fresh set,
`setTarget(Range(100,130), 1000000)` reaches `makeFirstBlockAt(999991)`,
whose range clamps to the empty `Range(200,200)` — yet a block is built
and stays in the list (it ends up last after the cover loop prepends
real blocks).  The block list has gained a block of height 0. -/
theorem wild_focus_creates_empty_block :
    ((runCalls 200 [(⟨100, 130⟩, 1000000)]).blocks.any
      (fun b => b.range.height == 0)) = true ∧
    (runCalls 200 [(⟨100, 130⟩, 1000000)]).blocks.getLast? =
      some ⟨⟨200, 200⟩, false⟩ := by
  simp only [runCalls, List.foldl_cons, List.foldl_nil, setTarget, setTargetFields_eval]
  decide

/-! ### C9: `doWork` and `getNextUnpreparedBlock` -/

/-- One unfolding of the outward-walk loop. -/
theorem searchOut_succ (bs : List BlockData) (fuel : ℕ) (back : ℤ) (fwd : ℕ) :
    searchOut bs (fuel + 1) back fwd =
      if 0 ≤ back ∨ fwd < bs.length then
        match (if 0 ≤ back then
            match bs[back.toNat]? with
            | some b => if b.prepared then none else some b
            | none => none
          else none) with
        | some b => some b
        | none =>
          match (if fwd < bs.length then
              match bs[fwd]? with
              | some b => if b.prepared then none else some b
              | none => none
            else none) with
          | some b => some b
          | none => searchOut bs fuel (back - 1) (fwd + 1)
      else none := rfl

/-- Whatever the outward walk returns is an unprepared block of the list. -/
theorem searchOut_sound {bs : List BlockData} :
    ∀ (fuel : ℕ) (back : ℤ) (fwd : ℕ) {b : BlockData},
      searchOut bs fuel back fwd = some b → b ∈ bs ∧ b.prepared = false
  | 0, back, fwd, b, h => by simp [searchOut] at h
  | fuel + 1, back, fwd, b, h => by
    rw [searchOut_succ] at h
    by_cases hcond : 0 ≤ back ∨ fwd < bs.length
    · rw [if_pos hcond] at h
      cases hE1 : (if 0 ≤ back then
          match bs[back.toNat]? with
          | some b => if b.prepared then none else some b
          | none => none
        else none) with
      | some b1 =>
        rw [hE1] at h
        simp only [Option.some.injEq] at h
        subst h
        split_ifs at hE1 with hba
        · cases hg : bs[back.toNat]? with
          | none => rw [hg] at hE1; simp at hE1
          | some b' =>
            rw [hg] at hE1
            dsimp only at hE1
            by_cases hprep : b'.prepared = true
            · rw [if_pos hprep] at hE1
              exact absurd hE1 (by simp)
            · rw [if_neg hprep] at hE1
              have hbb := Option.some_inj.mp hE1
              subst hbb
              exact ⟨List.mem_iff_getElem?.mpr ⟨_, hg⟩, by simpa using hprep⟩
      | none =>
        rw [hE1] at h
        cases hE2 : (if fwd < bs.length then
            match bs[fwd]? with
            | some b => if b.prepared then none else some b
            | none => none
          else none) with
        | some b2 =>
          rw [hE2] at h
          simp only [Option.some.injEq] at h
          subst h
          split_ifs at hE2 with hfw
          · cases hg : bs[fwd]? with
            | none => rw [hg] at hE2; simp at hE2
            | some b' =>
              rw [hg] at hE2
              dsimp only at hE2
              by_cases hprep : b'.prepared = true
              · rw [if_pos hprep] at hE2
                exact absurd hE2 (by simp)
              · rw [if_neg hprep] at hE2
                have hbb := Option.some_inj.mp hE2
                subst hbb
                exact ⟨List.mem_iff_getElem?.mpr ⟨_, hg⟩, by simpa using hprep⟩
        | none =>
          rw [hE2] at h
          exact searchOut_sound fuel (back - 1) (fwd + 1) h
    · rw [if_neg hcond] at h
      simp at h

/-- Completeness of the outward walk: if some index `i` on the
still-unvisited side holds an unprepared block and the fuel covers the
remaining iterations, the walk does not return `none`. -/
theorem searchOut_finds {bs : List BlockData} {i : ℕ} (hi : i < bs.length)
    (hunp : ∀ b, bs[i]? = some b → b.prepared = false) :
    ∀ (fuel : ℕ) (back : ℤ) (fwd : ℕ),
      (((i : ℤ) ≤ back ∧ back < (fuel : ℤ) + i) ∨ (fwd ≤ i ∧ i < fwd + fuel)) →
      searchOut bs fuel back fwd ≠ none
  | 0, back, fwd, hcase => by
    exfalso
    rcases hcase with ⟨h1, h2⟩ | ⟨h1, h2⟩ <;> omega
  | fuel + 1, back, fwd, hcase => by
    rw [searchOut_succ]
    have hcond : 0 ≤ back ∨ fwd < bs.length := by
      rcases hcase with ⟨h1, _⟩ | ⟨h1, _⟩
      · left; omega
      · right; omega
    rw [if_pos hcond]
    cases hE1 : (if 0 ≤ back then
        match bs[back.toNat]? with
        | some b => if b.prepared then none else some b
        | none => none
      else none) with
    | some b1 => simp
    | none =>
      cases hE2 : (if fwd < bs.length then
          match bs[fwd]? with
          | some b => if b.prepared then none else some b
          | none => none
        else none) with
      | some b2 => simp
      | none =>
        show searchOut bs fuel (back - 1) (fwd + 1) ≠ none
        have hib : (i : ℤ) ≠ back := by
          intro heq
          rw [if_pos (by omega)] at hE1
          have ht : back.toNat = i := by omega
          rw [ht] at hE1
          cases hg : bs[i]? with
          | none =>
            rw [List.getElem?_eq_none_iff] at hg
            omega
          | some b' =>
            rw [hg] at hE1
            dsimp only at hE1
            rw [hunp b' hg] at hE1
            simp at hE1
        have hif : i ≠ fwd := by
          intro heq
          rw [if_pos (by omega)] at hE2
          subst heq
          cases hg : bs[i]? with
          | none =>
            rw [List.getElem?_eq_none_iff] at hg
            omega
          | some b' =>
            rw [hg] at hE2
            dsimp only at hE2
            rw [hunp b' hg] at hE2
            simp at hE2
        apply searchOut_finds hi hunp fuel (back - 1) (fwd + 1)
        rcases hcase with ⟨h1, h2⟩ | ⟨h1, h2⟩
        · left
          constructor <;> [omega; omega]
        · right
          constructor <;> [omega; omega]

/-- C9 (amended): `doWork` prepares no block when the clamped focal row
lies in no live block; when it does lie in a live block and some live
block is unprepared, a block is prepared if and only if the uniform draw
`u` strictly exceeds `evt.loadFactor` — in particular at `loadFactor = 0`
preparation is skipped exactly for the (possible) draw `u = 0`, not
"never" as the claim's parenthetical says; and any block prepared is an
unprepared member of the list. -/
theorem doWork_spec (N : ℤ) (s : BlockSetState) (u lf : ℚ) :
    ((∀ b ∈ s.blocks,
        b.range.containsNum (Range.clampNum ⟨0, N⟩ s.targetRow) = false) →
      doWork N u lf s = none) ∧
    ((∃ b ∈ s.blocks,
        b.range.containsNum (Range.clampNum ⟨0, N⟩ s.targetRow) = true) →
      (∃ b ∈ s.blocks, b.prepared = false) →
      ((doWork N u lf s).isSome ↔ lf < u)) ∧
    (∀ b, doWork N u lf s = some b → b ∈ s.blocks ∧ b.prepared = false) := by
  refine ⟨?_, ?_, ?_⟩
  · intro hall
    have hnone : s.blocks.findIdx?
        (fun b => b.range.containsNum (Range.clampNum ⟨0, N⟩ s.targetRow)) = none :=
      List.findIdx?_eq_none_iff.2 hall
    unfold doWork getNextUnpreparedBlock
    dsimp only
    rw [hnone]
  · intro hcenter hunp
    obtain ⟨c, hc⟩ : ∃ c, s.blocks.findIdx?
        (fun b => b.range.containsNum (Range.clampNum ⟨0, N⟩ s.targetRow)) = some c := by
      cases hfi : s.blocks.findIdx?
          (fun b => b.range.containsNum (Range.clampNum ⟨0, N⟩ s.targetRow)) with
      | none =>
        obtain ⟨b, hb1, hb2⟩ := hcenter
        have := List.findIdx?_eq_none_iff.1 hfi b hb1
        rw [hb2] at this
        simp at this
      | some c => exact ⟨c, rfl⟩
    have hclen : c < s.blocks.length :=
      (List.findIdx?_eq_some_iff_findIdx_eq.1 hc).1
    obtain ⟨b0, hb0mem, hb0⟩ := hunp
    obtain ⟨i, hgi⟩ := List.mem_iff_getElem?.1 hb0mem
    have hilen : i < s.blocks.length := by
      rcases List.getElem?_eq_some.1 hgi with ⟨h, _⟩
      exact h
    have hq : ∀ b, s.blocks[i]? = some b → b.prepared = false := by
      intro b hb
      rw [hgi] at hb
      cases hb
      exact hb0
    have hne := searchOut_finds hilen hq (s.blocks.length + 1) (c : ℤ) (c + 1)
      (by
        rcases le_or_lt i c with hle | hlt
        · left
          constructor <;> omega
        · right
          constructor <;> omega)
    unfold doWork getNextUnpreparedBlock
    dsimp only
    rw [hc]
    dsimp only
    cases hg : searchOut s.blocks (s.blocks.length + 1) (c : ℤ) (c + 1) with
    | none => exact absurd hg hne
    | some b =>
      dsimp only
      split_ifs with hlu
      · simpa using hlu
      · simpa using hlu
  · intro b hb
    unfold doWork getNextUnpreparedBlock at hb
    dsimp only at hb
    cases hfi : s.blocks.findIdx?
        (fun b => b.range.containsNum (Range.clampNum ⟨0, N⟩ s.targetRow)) with
    | none => rw [hfi] at hb; simp at hb
    | some c =>
      rw [hfi] at hb
      dsimp only at hb
      cases hg : searchOut s.blocks (s.blocks.length + 1) (c : ℤ) (c + 1) with
      | none => rw [hg] at hb; simp at hb
      | some b' =>
        rw [hg] at hb
        dsimp only at hb
        by_cases hlu : lf < u
        · rw [if_pos hlu] at hb
          have hbb := Option.some_inj.mp hb
          subst hbb
          exact searchOut_sound _ _ _ hg
        · rw [if_neg hlu] at hb
          exact absurd hb (by simp)

/-- C9 witness: one unprepared block containing the focal row; with
draw `u = 1` and `loadFactor = 0` the block is prepared. -/
theorem doWork_spec_witness :
    (doWork 100 1 0
      { blocks := [⟨⟨0, 19⟩, false⟩], targetRange := ⟨0, 19⟩, leaveRange := ⟨0, 19⟩
        targetRow := 5, preferredBlockSize := 19, lastTimes := [] }).isSome = true :=
  ((doWork_spec 100
      { blocks := [⟨⟨0, 19⟩, false⟩], targetRange := ⟨0, 19⟩, leaveRange := ⟨0, 19⟩
        targetRow := 5, preferredBlockSize := 19, lastTimes := [] } 1 0).2.1
    (by decide) (by decide)).mpr (by norm_num)

/-- C9 counterexample: at `loadFactor = 0` the claim's parenthetical says
preparation is never skipped; but `Math.random()` can return exactly 0,
and `shouldRun = (u > loadFactor)` is false for `u = 0, loadFactor = 0`,
so `doWork` prepares nothing even though an unprepared block sits right
at the focal row. -/
theorem doWork_skips_at_zero_load_zero_draw :
    getNextUnpreparedBlock 100
      { blocks := [⟨⟨0, 19⟩, false⟩], targetRange := ⟨0, 19⟩, leaveRange := ⟨0, 19⟩
        targetRow := 5, preferredBlockSize := 19, lastTimes := [] } =
      some ⟨⟨0, 19⟩, false⟩ ∧
    doWork 100 0 0
      { blocks := [⟨⟨0, 19⟩, false⟩], targetRange := ⟨0, 19⟩, leaveRange := ⟨0, 19⟩
        targetRow := 5, preferredBlockSize := 19, lastTimes := [] } = none := by
  decide

/-- C6: `clampNum` is claimed to clamp into the closed interval
`[top, bot - 1]`, returning `bot - 1` for every input above that
interval.  At `i = bot` itself (which is above `bot - 1`) the code's
strict comparison `i > this.bot` fails and `i` is returned unchanged:
`Range(0,5).clampNum(5) = 5`, which lies outside `[0, 4]`.  This
contradicts the function's own doc comment ("returns i clamped to fit
within this") and the clamping performed by its other branch. -/
theorem clampNum_bot_escapes_interval :
    Range.clampNum ⟨0, 5⟩ 5 = 5 ∧ ¬ (Range.clampNum ⟨0, 5⟩ 5 ≤ (5 : ℤ) - 1) := by
  decide

/-- C7: the claim (and the source's own comment `//average last 5
frames`) says that once 5 ticks have happened the getter returns the mean
of the last 5 durations.  Because `addValue` shifts when `length >=
maxSamples` (not `>`), only 4 samples are ever retained: after durations
`[10, 20, 30, 40, 50]` the window is `[20, 30, 40, 50]` and the getter
returns `35`, not the mean `30` of the last five. -/
theorem getAveragedFrameTime_keeps_only_four :
    animationTicks [10, 20, 30, 40, 50] =
      { samples := [20, 30, 40, 50], maxSamples := 5 } ∧
    getAveragedFrameTime [10, 20, 30, 40, 50] = some 35 ∧
    (10 + 20 + 30 + 40 + 50 : ℚ) / 5 = 30 ∧ (35 : ℚ) ≠ 30 := by
  have h : animationTicks [10, 20, 30, 40, 50] =
      { samples := [20, 30, 40, 50], maxSamples := 5 } := by decide
  refine ⟨h, ?_, by norm_num, by norm_num⟩
  unfold getAveragedFrameTime
  rw [h]
  unfold AveragedValue.getAvg
  norm_num

/-- C10: `getVel` mutates the tracker exactly when called at least
`decayTime = 200` ms after the last `onScroll` update, in which case it
zeroes `lastVel` (and returns 0); in every other case the state is
returned unchanged, and `lastPos`/`lastTime` are never written. -/
theorem getVel_state_effect (s : VelTracker) (now : ℚ) :
    (200 ≤ now - s.lastTime →
      (s.getVel now).2 = { s with lastVel := 0 } ∧ (s.getVel now).1 = 0) ∧
    (now - s.lastTime < 200 → (s.getVel now).2 = s) ∧
    (s.getVel now).2.lastPos = s.lastPos ∧
    (s.getVel now).2.lastTime = s.lastTime := by
  unfold VelTracker.getVel VelTracker.decayStartTime VelTracker.decayTime
  constructor
  · intro h
    have h1 : ¬ (now - s.lastTime < 50) := by linarith
    simp [h1, h]
  · constructor
    · intro h
      have h2 : ¬ ((200 : ℚ) ≤ now - s.lastTime) := by linarith
      by_cases h1 : now - s.lastTime < 50 <;> simp [h1, h2]
    · by_cases h1 : now - s.lastTime < 50 <;>
        by_cases h2 : (200 : ℚ) ≤ now - s.lastTime <;> simp [h1, h2]

/-- Witness for C10 at a concrete input: tracker `⟨0, 7, 3⟩` queried at
`now = 250` (250 ms after the last update) is reset to velocity 0. -/
theorem getVel_state_effect_witness :
    ((⟨0, 7, 3⟩ : VelTracker).getVel 250).2 = ⟨0, 7, 0⟩ ∧
    ((⟨0, 7, 3⟩ : VelTracker).getVel 250).1 = 0 :=
  (getVel_state_effect ⟨0, 7, 3⟩ 250).1 (by norm_num)

/-- C8: `cancelJobs(owner)` rewrites each of the three queues pointwise:
a task that is Pending and owned by `owner` transitions to Rejected with
a task-cancelled error; every other task (other owners, or already
Fulfilled/Rejected) is returned untouched, and queue lengths are
preserved. -/
theorem cancelJobs_spec (σ : SchedulerState) (o : ℕ) (p : Phase) (i : ℕ) (t : Task)
    (h : (queueOf p σ).get? i = some t) :
    (queueOf p (Scheduler.cancelJobs o σ)).get? i =
      some (if t.owner = o ∧ t.state = .Pending
            then { t with state := .Rejected, rejectedWith := some .taskCancelled }
            else t) ∧
    (queueOf p (Scheduler.cancelJobs o σ)).length = (queueOf p σ).length := by
  have hq : queueOf p (Scheduler.cancelJobs o σ) = clearTasksBy o (queueOf p σ) := by
    cases p <;> rfl
  rw [hq]
  unfold clearTasksBy
  constructor
  · rw [List.get?_map, h]
    simp [cancelTask]
  · simp

/-- Witness for C8: a queue holding a pending task of owner 0, a
fulfilled task of owner 0 and a pending task of owner 1; cancelling
owner 0's jobs rejects exactly the first with a task-cancelled error. -/
theorem cancelJobs_spec_witness :
    (queueOf .read (Scheduler.cancelJobs 0
        { readQueue :=
            [ { id := 0, owner := 0, state := .Pending, rejectedWith := none, cont := [] },
              { id := 1, owner := 0, state := .Fulfilled, rejectedWith := none, cont := [] },
              { id := 2, owner := 1, state := .Pending, rejectedWith := none, cont := [] } ],
          writeQueue := [], idleWriteQueue := [], nextId := 3 })).get? 0 =
      some { id := 0, owner := 0, state := .Rejected
             rejectedWith := some .taskCancelled, cont := [] } := by
  have h := cancelJobs_spec
    { readQueue :=
        [ { id := 0, owner := 0, state := .Pending, rejectedWith := none, cont := [] },
          { id := 1, owner := 0, state := .Fulfilled, rejectedWith := none, cont := [] },
          { id := 2, owner := 1, state := .Pending, rejectedWith := none, cont := [] } ],
      writeQueue := [], idleWriteQueue := [], nextId := 3 }
    0 .read 0
    { id := 0, owner := 0, state := .Pending, rejectedWith := none, cont := [] }
    rfl
  simpa using h.1

/-- C3: a read task whose continuation schedules a new task onto the
*same* (read) phase.  Draining fulfills the original task (trace `[0]`)
but the rescheduled task is added to the already-emptied read queue and
is still Pending when `doBatched` returns: it is *not* drained within the
same call, contrary to the claim and to the `NOTE` comment on
`executeTasks`.  (It would only be fulfilled by the next frame's drain.) -/
theorem samePhase_reschedule_not_drained :
    (doBatched
      { readQueue := [{ id := 0, owner := 0, state := .Pending
                        rejectedWith := none, cont := [.read] }],
        writeQueue := [], idleWriteQueue := [], nextId := 1 }).2 = [0] ∧
    (doBatched
      { readQueue := [{ id := 0, owner := 0, state := .Pending
                        rejectedWith := none, cont := [.read] }],
        writeQueue := [], idleWriteQueue := [], nextId := 1 }).1.readQueue =
      [{ id := 1, owner := 0, state := .Pending, rejectedWith := none, cont := [] }] := by
  decide

/-- C4 counterexample: for a prepared one-row block, `free()` surrenders
both elements *before* `cancelJobs` — the trace is
`[freeDummyDom 0, freeDom 0, cancelJobs, domDispose]`, so it is false
that no element is released before the `cancelJobs` call. -/
theorem free_releases_before_cancelJobs :
    BlockImpl.free ⟨0, 1⟩ true =
      [.freeDummyDom 0, .freeDom 0, .cancelJobs, .domDispose] ∧
    ¬ ((BlockImpl.free ⟨0, 1⟩ true).takeWhile
        (fun e => !(e == FreeEvent.cancelJobs))).all (fun e => !e.isRelease) := by
  constructor
  · rfl
  · decide

/-- C4 amended: in `free()` the `cancelJobs(this)` call comes *after* all
element releases and *before* the host-element disposal: every event of
the trace is a release, the cancellation, or the disposal; exactly one
`cancelJobs` occurs; no release occurs at or after it; and the trace ends
with the disposal.  (Since `free()` is synchronous and scheduler
continuations only run at microtask checkpoints, no continuation can run
between the releases and the cancellation, so the spec's consequence — no
`render` continuation observes the freed block — is preserved.) -/
theorem free_cancelJobs_after_releases_before_dispose (range : Range) (prepared : Bool) :
    (∀ e ∈ BlockImpl.free range prepared,
      e.isRelease = true ∨ e = .cancelJobs ∨ e = .domDispose) ∧
    (BlockImpl.free range prepared).count .cancelJobs = 1 ∧
    ((BlockImpl.free range prepared).dropWhile
        (fun e => !(e == FreeEvent.cancelJobs))).all
      (fun e => !e.isRelease) = true ∧
    (BlockImpl.free range prepared).getLast? = some .domDispose := by
  unfold BlockImpl.free
  have hrel : ∀ e ∈ (range.toList.flatMap fun i =>
      FreeEvent.freeDummyDom i :: if prepared then [FreeEvent.freeDom i] else []),
      e.isRelease = true := by
    intro e he
    rw [List.mem_flatMap] at he
    obtain ⟨i, _, hei⟩ := he
    rcases List.mem_cons.1 hei with h | h
    · subst h; rfl
    · cases prepared <;> simp at h
      subst h; rfl
  refine ⟨?_, ?_, ?_, ?_⟩
  · intro e he
    rcases List.mem_append.1 he with h | h
    · exact Or.inl (hrel e h)
    · rcases List.mem_cons.1 h with h | h
      · exact Or.inr (Or.inl h)
      · simp at h; exact Or.inr (Or.inr h)
  · rw [List.count_append]
    have h0 : (range.toList.flatMap fun i =>
        FreeEvent.freeDummyDom i :: if prepared then [FreeEvent.freeDom i] else []).count
        FreeEvent.cancelJobs = 0 := by
      rw [List.count_eq_zero]
      intro hmem
      have := hrel _ hmem
      simp [FreeEvent.isRelease] at this
    rw [h0]
    rfl
  · have hdw : ((range.toList.flatMap fun i =>
        FreeEvent.freeDummyDom i :: if prepared then [FreeEvent.freeDom i] else []) ++
        [FreeEvent.cancelJobs, FreeEvent.domDispose]).dropWhile
          (fun e => !(e == FreeEvent.cancelJobs)) =
        [FreeEvent.cancelJobs, FreeEvent.domDispose] := by
      rw [List.dropWhile_append]
      have hne : ∀ e ∈ (range.toList.flatMap fun i =>
          FreeEvent.freeDummyDom i :: if prepared then [FreeEvent.freeDom i] else []),
          (fun e => !(e == FreeEvent.cancelJobs)) e = true := by
        intro e he
        have := hrel e he
        cases e <;> simp_all [FreeEvent.isRelease]
      simp only [List.dropWhile_eq_nil_iff.2 hne]
      simp [List.dropWhile]
    rw [hdw]
    decide
  · rw [List.getLast?_append]
    rfl

/-- Witness for C4's amended theorem at a two-row prepared block. -/
theorem free_cancelJobs_order_witness :
    ((BlockImpl.free ⟨3, 5⟩ true).dropWhile
        (fun e => !(e == FreeEvent.cancelJobs))).all
      (fun e => !e.isRelease) = true ∧
    (BlockImpl.free ⟨3, 5⟩ true).getLast? = some .domDispose :=
  ⟨(free_cancelJobs_after_releases_before_dispose ⟨3, 5⟩ true).2.2.1,
   (free_cancelJobs_after_releases_before_dispose ⟨3, 5⟩ true).2.2.2⟩

end LongScrollSpec
